import Mathlib

/-!
Verification development for the MLServer parallel dispatcher
(src/mlserver/parallel/dispatcher.py) and the codec registry
(src/mlserver/codecs/base.py), shallowly embedded in Lean.

The dispatcher's pending-operation table (`self._async_responses`, a Python
dict from correlation id to asyncio Future) is embedded as an association
list with Python-dict operations `dictGet`, `dictSet`, `dictDel`.  The
response-processing loop, its supervision callback and the shutdown path are
embedded as explicit functions on that state.  Where the loop hands data to
a suspended caller through an asyncio Future, the Future is embedded as a
`FutureState` value stored in the table, and the caller's `await` as a read
of that value once resolved.
-/

deriving instance DecidableEq for Except

namespace MLServer

/-- Errors raised by the Python dict operations used in the dispatcher and
the codec registry. The only error the embedded code can raise is a KeyError
from indexing a dict with a missing key. -/
inductive PyError
  | keyError (key : String)
deriving DecidableEq

/-- Modelled from the spec: ModelRequestMessage lives in
src/mlserver/parallel/messages.py, which is not among the sources. Per §3 it
is the immutable request envelope: a correlation identifier plus an opaque
request payload. `dispatcher.py` reads only the field `id`. -/
structure ModelRequestMessage where
  id : String
  payload : Nat
deriving DecidableEq

/-- Modelled from the spec: ModelResponseMessage lives in
src/mlserver/parallel/messages.py, which is not among the sources. Per §3 it
is the immutable response envelope: a correlation identifier matching a
prior request, and either a success payload or an error description (the
latter held in `exception`, the field `dispatcher.py` branches on). -/
structure ModelResponseMessage where
  id : String
  exception : Option String
  payload : Nat
deriving DecidableEq

/-- Python dict lookup `d.get(k)` : returns `none` when the key is absent.
Indexing `d[k]` raises KeyError exactly when this returns `none`. -/
def dictGet {α : Type} : List (String × α) → String → Option α
  | [], _ => none
  | (k, v) :: d, key => if k = key then some v else dictGet d key

/-- Python dict assignment `d[k] = v` : overwrites the binding in place if
the key is present, otherwise appends a new binding. -/
def dictSet {α : Type} : List (String × α) → String → α → List (String × α)
  | [], key, val => [(key, val)]
  | (k, v) :: d, key, val =>
      if k = key then (k, val) :: d else (k, v) :: dictSet d key val

/-- Python `del d[k]` for a present key: removes the binding. (On an absent
key the real `del` raises KeyError; call sites below only delete keys they
hold, which the theorems track through `dictGet` hypotheses.) -/
def dictDel {α : Type} : List (String × α) → String → List (String × α)
  | [], _ => []
  | (k, v) :: d, key => if k = key then d else (k, v) :: dictDel d key

/-- The keys of a Python dict. -/
def dictKeys {α : Type} (d : List (String × α)) : List String := d.map Prod.fst

/-- The state of one asyncio Future held in `self._async_responses`:
still pending, resolved via `set_result` with a response message, or
resolved via `set_exception` with the worker-carried error. -/
inductive FutureState
  | pending
  | result (r : ModelResponseMessage)
  | exc (e : String)
deriving DecidableEq

/-- The pending-operation table `self._async_responses :
Dict[str, Future[ModelResponseMessage]]` (dispatcher.py line 39). -/
abbrev Table := List (String × FutureState)

/-- The resolution `_process_response` applies to the looked-up future
(dispatcher.py lines 81-86): `set_exception(response.exception)` when the
response carries an error, `set_result(response)` otherwise. The
`call_soon_threadsafe` scheduling hop is embedded as the resolution's
effect on the future's state. -/
def respState (m : ModelResponseMessage) : FutureState :=
  match m.exception with
  | some e => FutureState.exc e
  | none => FutureState.result m

/-- `Dispatcher._process_response` (dispatcher.py lines 72-86): look up the
response's correlation id in the pending table — a plain dict indexing,
which raises KeyError when the id is unknown — and resolve the future per
`respState`. -/
def _process_response (table : Table) (m : ModelResponseMessage) :
    Except PyError Table :=
  match dictGet table m.id with
  | none => Except.error (PyError.keyError m.id)
  | some _ => Except.ok (dictSet table m.id (respState m))

/-- An item read from the shared response channel `self._responses`: either
a genuine response or the END_OF_QUEUE sentinel. -/
inductive QItem
  | endOfQueue
  | resp (m : ModelResponseMessage)
deriving DecidableEq

/-- Modelled from the spec: END_OF_QUEUE lives in src/mlserver/parallel/utils.py,
which is not among the sources. Per §6 it is a reserved value, distinguishable
from any legitimate response, signalling end-of-stream on the shared channel. -/
def END_OF_QUEUE : QItem := QItem.endOfQueue

/-- How one run of the `_process_responses` loop ends, given the (finite
prefix of) items available on the shared response channel. -/
inductive LoopExit
  | blocked
  | finished (rest : List QItem)
  | crashed (e : PyError) (rest : List QItem)
deriving DecidableEq

/-- `Dispatcher._process_responses` (dispatcher.py lines 59-70): while
`self._active`, read the next item from the shared response queue (the
`run_in_executor` offload is embedded away: only the read's value matters);
return cleanly on the END_OF_QUEUE sentinel; otherwise process the response,
any exception escaping uncaught. The channel is embedded as the finite list
of items it will yield; an exhausted list leaves the loop blocked on
`self._responses.get`. -/
def _process_responses (active : Bool) (table : Table) :
    List QItem → Table × LoopExit
  | [] => if active then (table, LoopExit.blocked) else (table, LoopExit.finished [])
  | item :: rest =>
      if active then
        match item with
        | QItem.endOfQueue => (table, LoopExit.finished rest)
        | QItem.resp m =>
            match _process_response table m with
            | Except.error e => (table, LoopExit.crashed e rest)
            | Except.ok t => _process_responses active t rest
      else (table, LoopExit.finished (item :: rest))

/-- How the scheduled `_process_responses` task is observed to have ended by
its completion callback: returned normally (sentinel read or `self._active`
false), cancelled from the outside, or crashed with an uncaught exception. -/
inductive LoopOutcome
  | finished
  | cancelled
  | failed (e : PyError)
deriving DecidableEq

/-- `Dispatcher._process_responses_cb` (dispatcher.py lines 47-57): the
completion callback attached by `start`. `true` means it calls
`self.start()` again, restarting the loop; `asyncio.CancelledError` and a
normal return do not restart. -/
def _process_responses_cb : LoopOutcome → Bool
  | LoopOutcome.finished => false
  | LoopOutcome.cancelled => false
  | LoopOutcome.failed _ => true

/-- The response loop as supervised by `_process_responses_cb` via
`Dispatcher.start` (dispatcher.py lines 41-45): each crash of
`_process_responses` restarts the loop on the remaining channel items
(`start` sets `self._active = True`, so the restarted loop runs active);
reading the sentinel ends it for good; an exhausted item list leaves it
blocked. Returns the final table and whether the loop terminated by reading
the sentinel. -/
def supervisedProcess (table : Table) : List QItem → Table × Bool
  | [] => (table, false)
  | QItem.endOfQueue :: _ => (table, true)
  | QItem.resp m :: rest =>
      match _process_response table m with
      | Except.error _ => supervisedProcess table rest
      | Except.ok t => supervisedProcess t rest

/-- How the `await async_response` inside `_wait_response` ends for the
caller: with the response set by the loop via `set_result`, with the
worker-carried error set via `set_exception`, or with a CancelledError
because the surrounding execution context was cancelled externally. -/
inductive AwaitEnd
  | value (r : ModelResponseMessage)
  | error (e : String)
  | cancelled
deriving DecidableEq

/-- The await outcome a resolved future delivers to its awaiting caller
(`none` while still pending: the caller stays suspended). -/
def awaitEndOf : FutureState → Option AwaitEnd
  | FutureState.pending => none
  | FutureState.result r => some (AwaitEnd.value r)
  | FutureState.exc e => some (AwaitEnd.error e)

/-- `Dispatcher._wait_response` (dispatcher.py lines 123-130): look up the
caller's future (dict indexing — KeyError if absent), await it, and in the
`finally` block delete the table entry, whichever way the await ended
(`end_` : resolution value, resolution error, or external cancellation);
the try block's outcome then propagates to the `dispatch` caller. -/
def _wait_response (table : Table) (internal_id : String) (end_ : AwaitEnd) :
    Except PyError (AwaitEnd × Table) :=
  match dictGet table internal_id with
  | none => Except.error (PyError.keyError internal_id)
  | some _ => Except.ok (end_, dictDel table internal_id)

/-- The observable actions `Dispatcher.dispatch` performs, in program order
(dispatcher.py lines 88-101), used to settle ordering claims. -/
inductive DispatchAction
  | selectWorker (wpid : Nat)
  | observeQueueDepth (wpid : Nat)
  | sendRequest (wpid : Nat) (rid : String)
  | observeProcessCount
  | createFuture
  | registerPending (rid : String)
  | awaitPending (rid : String)
deriving DecidableEq

/-- `Dispatcher.dispatch` (dispatcher.py lines 88-101) as its sequence of
actions: `_get_worker`; `_workers_queue_monitor`; `worker.send_request`;
`_workers_processes_monitor`; `loop.create_future()`; the assignment
`self._async_responses[internal_id] = async_response`; then
`await self._wait_response(internal_id)`. No await point occurs before the
final action, so under asyncio's cooperative scheduling the prefix runs
atomically with respect to the response loop. -/
def dispatchActions (wpid : Nat) (req : ModelRequestMessage) :
    List DispatchAction :=
  [ DispatchAction.selectWorker wpid,
    DispatchAction.observeQueueDepth wpid,
    DispatchAction.sendRequest wpid req.id,
    DispatchAction.observeProcessCount,
    DispatchAction.createFuture,
    DispatchAction.registerPending req.id,
    DispatchAction.awaitPending req.id ]

/-- Recogniser for the submission action of `dispatch`. -/
def isSendAction : DispatchAction → Bool
  | DispatchAction.sendRequest _ _ => true
  | _ => false

/-- Recogniser for the pending-table registration action of `dispatch`. -/
def isRegisterAction : DispatchAction → Bool
  | DispatchAction.registerPending _ => true
  | _ => false

/-- Recogniser for the awaiting action of `dispatch`. -/
def isAwaitAction : DispatchAction → Bool
  | DispatchAction.awaitPending _ => true
  | _ => false

/-- `Dispatcher._get_worker` (dispatcher.py lines 103-109): the round-robin
cursor `cycle(self._workers.keys())` built in `__init__` (line 35) yields,
on the n-th `next` (0-based), the element at position n mod N of the
workers' fixed registration-order key list. The selection reads no worker
state, so a busy worker is never skipped. -/
def _get_worker (pids : List Nat) (n : Nat) : Nat :=
  pids.getD (n % pids.length) 0

/-- Number of the first M sequential dispatch calls routed to worker `wpid`
by `_get_worker`. -/
def assignedCount (pids : List Nat) (M : Nat) (wpid : Nat) : Nat :=
  ((List.range M).filter (fun n => _get_worker pids n = wpid)).length

/-- Number of the first M call indices landing on round-robin slot j. -/
def slotCount (N M j : Nat) : Nat :=
  ((List.range M).filter (fun n => n % N = j)).length

/-- The dispatcher state touched by `stop` (dispatcher.py lines 32-39):
the shared response channel's unread contents and closed flag, the executor
flag, and the loop task (`none` before `start`; `some running`). -/
structure DispatcherState where
  responses : List QItem
  responsesClosed : Bool
  executorShutdown : Bool
  task : Option Bool
deriving DecidableEq

/-- Modelled from the spec: terminate_queue lives in
src/mlserver/parallel/utils.py, which is not among the sources. Per §4.5
step 1 it pushes the end-of-stream sentinel onto the shared response channel
so the loop observes it and exits gracefully. -/
def terminate_queue (q : List QItem) : List QItem := q ++ [END_OF_QUEUE]

/-- Modelled from the spec: cancel_task lives in
src/mlserver/parallel/utils.py, which is not among the sources. Per §4.5
step 4 it cancels the background loop task and waits for it to finish;
cancellation is idempotent and does not raise if the loop already exited
via the sentinel. The task is left not-running. -/
def cancel_task (_t : Bool) : Bool := false

/-- `Dispatcher.stop` (dispatcher.py lines 134-139): terminate the shared
response queue with the sentinel, close it, shut the executor down, and —
if a loop task was ever started — cancel it. -/
def stop (s : DispatcherState) : DispatcherState :=
  { responses := terminate_queue s.responses,
    responsesClosed := true,
    executorShutdown := true,
    task := match s.task with
            | none => none
            | some t => some (cancel_task t) }

/-- A codec instance (src/mlserver/codecs/base.py): the registry stores and
returns codecs opaquely, so a codec is represented by an opaque name. -/
abbrev Codec := String

/-- The module-level default-argument objects of `_CodecRegistry.__init__`
(base.py lines 45-51): Python evaluates the defaults `input_codecs={}` and
`request_codecs={}` once, when `__init__` is defined, so every construction
that omits an argument binds the very same mutable dict object. These two
shared dicts are the state threaded through the registry operations. -/
structure CodecDefaults where
  input_codecs : List (String × Codec)
  request_codecs : List (String × Codec)
deriving DecidableEq

/-- The module defaults start out as empty dicts (base.py lines 47-48). -/
def initialCodecDefaults : CodecDefaults := ⟨[], []⟩

/-- A `_CodecRegistry` instance (base.py lines 38-51). `none` in a field
means the corresponding `__init__` argument was omitted, so the instance
aliases the shared module-level default dict; `some d` means an explicit
dict was supplied to `__init__` (held per-instance here). -/
structure _CodecRegistry where
  own_input : Option (List (String × Codec))
  own_request : Option (List (String × Codec))
deriving DecidableEq

/-- The dict object `self._input_codecs` denotes, given the module defaults. -/
def _CodecRegistry.inputDict (m : CodecDefaults) (self : _CodecRegistry) :
    List (String × Codec) :=
  match self.own_input with
  | none => m.input_codecs
  | some d => d

/-- The dict object `self._request_codecs` denotes, given the module defaults. -/
def _CodecRegistry.requestDict (m : CodecDefaults) (self : _CodecRegistry) :
    List (String × Codec) :=
  match self.own_request with
  | none => m.request_codecs
  | some d => d

/-- `_CodecRegistry.register_input_codec` (base.py lines 53-55):
`self._input_codecs[content_type] = codec`, a plain dict assignment that
silently overwrites any earlier codec for the same content type. The
mutation lands on whichever dict object the instance references. -/
def _CodecRegistry.register_input_codec (m : CodecDefaults)
    (self : _CodecRegistry) (content_type : String) (codec : Codec) :
    CodecDefaults × _CodecRegistry :=
  match self.own_input with
  | none =>
      ({ m with input_codecs := dictSet m.input_codecs content_type codec }, self)
  | some d =>
      (m, { self with own_input := some (dictSet d content_type codec) })

/-- `_CodecRegistry.find_input_codec` (base.py lines 57-59):
`return self._input_codecs[content_type]`, a plain dict indexing that
raises KeyError when the content type was never registered. -/
def _CodecRegistry.find_input_codec (m : CodecDefaults)
    (self : _CodecRegistry) (content_type : String) : Except PyError Codec :=
  match dictGet (self.inputDict m) content_type with
  | none => Except.error (PyError.keyError content_type)
  | some c => Except.ok c

/-- `_CodecRegistry.register_request_codec` (base.py lines 61-63). -/
def _CodecRegistry.register_request_codec (m : CodecDefaults)
    (self : _CodecRegistry) (content_type : String) (codec : Codec) :
    CodecDefaults × _CodecRegistry :=
  match self.own_request with
  | none =>
      ({ m with request_codecs := dictSet m.request_codecs content_type codec }, self)
  | some d =>
      (m, { self with own_request := some (dictSet d content_type codec) })

/-- `_CodecRegistry.find_request_codec` (base.py lines 65-67). -/
def _CodecRegistry.find_request_codec (m : CodecDefaults)
    (self : _CodecRegistry) (content_type : String) : Except PyError Codec :=
  match dictGet (self.requestDict m) content_type with
  | none => Except.error (PyError.keyError content_type)
  | some c => Except.ok c

/-- The module-level singleton `_codec_registry = _CodecRegistry()`
(base.py line 70): constructed without arguments, so both fields alias the
shared default dicts. -/
def _codec_registry : _CodecRegistry := ⟨none, none⟩

/-- Module-level `find_input_codec` (base.py line 73): the singleton's bound
method. -/
def find_input_codec (m : CodecDefaults) (content_type : String) :
    Except PyError Codec :=
  _CodecRegistry.find_input_codec m _codec_registry content_type

/-- Module-level `find_request_codec` (base.py line 72). -/
def find_request_codec (m : CodecDefaults) (content_type : String) :
    Except PyError Codec :=
  _CodecRegistry.find_request_codec m _codec_registry content_type

/-- Module-level decorator `register_input_codec` (base.py lines 84-89):
registers an instance of the decorated class on the singleton. -/
def register_input_codec (m : CodecDefaults) (content_type : String)
    (codec : Codec) : CodecDefaults :=
  (_CodecRegistry.register_input_codec m _codec_registry content_type codec).1

/-- Module-level decorator `register_request_codec` (base.py lines 76-81). -/
def register_request_codec (m : CodecDefaults) (content_type : String)
    (codec : Codec) : CodecDefaults :=
  (_CodecRegistry.register_request_codec m _codec_registry content_type codec).1

/-- One registration event against the module singleton. -/
inductive CodecOp
  | regInput (content_type : String) (codec : Codec)
  | regRequest (content_type : String) (codec : Codec)
deriving DecidableEq

/-- The content type an operation registers under. -/
def CodecOp.contentType : CodecOp → String
  | CodecOp.regInput ct _ => ct
  | CodecOp.regRequest ct _ => ct

/-- Whether an operation is an input-codec registration for `ct`. -/
def CodecOp.isInputFor : CodecOp → String → Bool
  | CodecOp.regInput ct _, ct2 => ct = ct2
  | CodecOp.regRequest _ _, _ => false

/-- Whether an operation is a request-codec registration for `ct`. -/
def CodecOp.isRequestFor : CodecOp → String → Bool
  | CodecOp.regRequest ct _, ct2 => ct = ct2
  | CodecOp.regInput _ _, _ => false

/-- Apply one registration event to the module state. -/
def applyOp (m : CodecDefaults) : CodecOp → CodecDefaults
  | CodecOp.regInput ct c => register_input_codec m ct c
  | CodecOp.regRequest ct c => register_request_codec m ct c

/-- Apply a sequence of registration events in order. -/
def applyOps (m : CodecDefaults) (ops : List CodecOp) : CodecDefaults :=
  ops.foldl applyOp m

/-! ### Lemmas about the embedded Python dict operations -/

theorem dictGet_dictSet_self {α : Type} (d : List (String × α)) (k : String)
    (v : α) : dictGet (dictSet d k v) k = some v := by
  induction d with
  | nil => simp [dictGet, dictSet]
  | cons p d ih =>
      obtain ⟨k1, v1⟩ := p
      by_cases h : k1 = k
      · subst h; simp [dictGet, dictSet]
      · simp [dictGet, dictSet, h, ih]

theorem dictGet_dictSet_ne {α : Type} (d : List (String × α)) (k k' : String)
    (v : α) (h : k' ≠ k) : dictGet (dictSet d k v) k' = dictGet d k' := by
  induction d with
  | nil => simp [dictGet, dictSet, Ne.symm h]
  | cons p d ih =>
      obtain ⟨k1, v1⟩ := p
      by_cases h1 : k1 = k
      · subst h1; simp [dictGet, dictSet, Ne.symm h]
      · by_cases h2 : k1 = k'
        · subst h2; simp [dictGet, dictSet, h1]
        · simp [dictGet, dictSet, h1, h2, ih]

theorem isSome_dictGet_dictSet {α : Type} (d : List (String × α))
    (k k' : String) (v : α) (h : (dictGet d k').isSome) :
    (dictGet (dictSet d k v) k').isSome := by
  by_cases hk : k' = k
  · subst hk; rw [dictGet_dictSet_self]; rfl
  · rw [dictGet_dictSet_ne d k k' v hk]; exact h

theorem dictGet_dictDel_ne {α : Type} (d : List (String × α)) (k k' : String)
    (h : k' ≠ k) : dictGet (dictDel d k) k' = dictGet d k' := by
  induction d with
  | nil => simp [dictDel]
  | cons p d ih =>
      obtain ⟨k1, v1⟩ := p
      by_cases h1 : k1 = k
      · subst h1; simp [dictDel, dictGet, Ne.symm h]
      · by_cases h2 : k1 = k'
        · subst h2; simp [dictDel, dictGet, h1]
        · simp [dictDel, dictGet, h1, h2, ih]

theorem dictGet_eq_none_of_not_mem_keys {α : Type} (d : List (String × α))
    (k : String) (h : k ∉ dictKeys d) : dictGet d k = none := by
  induction d with
  | nil => rfl
  | cons p d ih =>
      obtain ⟨k1, v1⟩ := p
      rw [dictKeys, List.map_cons, List.mem_cons] at h
      push_neg at h
      have h1 : k1 ≠ k := fun hh => h.1 hh.symm
      simp [dictGet, h1]
      exact ih h.2

theorem dictGet_dictDel_self {α : Type} (d : List (String × α)) (k : String)
    (hnd : (dictKeys d).Nodup) : dictGet (dictDel d k) k = none := by
  induction d with
  | nil => rfl
  | cons p d ih =>
      obtain ⟨k1, v1⟩ := p
      rw [dictKeys, List.map_cons, List.nodup_cons] at hnd
      by_cases h1 : k1 = k
      · subst h1
        simp only [dictDel, if_pos rfl]
        exact dictGet_eq_none_of_not_mem_keys d k1 hnd.1
      · simp [dictDel, dictGet, h1]
        exact ih hnd.2

/-! ### Lemmas about the response-processing loop -/

theorem _process_response_of_isSome (table : Table) (m : ModelResponseMessage)
    (h : (dictGet table m.id).isSome) :
    _process_response table m = Except.ok (dictSet table m.id (respState m)) := by
  rcases hget : dictGet table m.id with _ | fs
  · rw [hget] at h; cases h
  · simp [_process_response, hget]

theorem _process_response_of_none (table : Table) (m : ModelResponseMessage)
    (h : dictGet table m.id = none) :
    _process_response table m = Except.error (PyError.keyError m.id) := by
  simp [_process_response, h]

theorem _process_response_ok_inv (table : Table) (m : ModelResponseMessage)
    (t : Table) (h : _process_response table m = Except.ok t) :
    t = dictSet table m.id (respState m) := by
  unfold _process_response at h
  rcases hget : dictGet table m.id with _ | fs
  · rw [hget] at h; cases h
  · rw [hget] at h
    injection h with h
    exact h.symm

theorem _process_responses_resp (table : Table) (m : ModelResponseMessage)
    (rest : List QItem) :
    _process_responses true table (QItem.resp m :: rest) =
      match _process_response table m with
      | Except.error e => (table, LoopExit.crashed e rest)
      | Except.ok t => _process_responses true t rest := rfl

theorem _process_responses_resp_ok (table : Table) (m : ModelResponseMessage)
    (rest : List QItem) (t : Table)
    (h : _process_response table m = Except.ok t) :
    _process_responses true table (QItem.resp m :: rest) =
      _process_responses true t rest := by
  rw [_process_responses_resp, h]

theorem _process_responses_resp_err (table : Table) (m : ModelResponseMessage)
    (rest : List QItem) (e : PyError)
    (h : _process_response table m = Except.error e) :
    _process_responses true table (QItem.resp m :: rest) =
      (table, LoopExit.crashed e rest) := by
  rw [_process_responses_resp, h]

theorem supervisedProcess_resp (table : Table) (m : ModelResponseMessage)
    (rest : List QItem) :
    supervisedProcess table (QItem.resp m :: rest) =
      match _process_response table m with
      | Except.error _ => supervisedProcess table rest
      | Except.ok t => supervisedProcess t rest := rfl

theorem supervisedProcess_resp_ok (table : Table) (m : ModelResponseMessage)
    (rest : List QItem) (t : Table)
    (h : _process_response table m = Except.ok t) :
    supervisedProcess table (QItem.resp m :: rest) = supervisedProcess t rest := by
  rw [supervisedProcess_resp, h]

theorem supervisedProcess_resp_err (table : Table) (m : ModelResponseMessage)
    (rest : List QItem) (e : PyError)
    (h : _process_response table m = Except.error e) :
    supervisedProcess table (QItem.resp m :: rest) = supervisedProcess table rest := by
  rw [supervisedProcess_resp, h]

/-- The supervised loop is exactly `_process_responses` composed with its
completion callback: a crash restarts the loop on the remaining channel
items precisely because `_process_responses_cb` returns true for a failure
outcome, while a normal return does not restart. -/
theorem supervisedProcess_eq_cb_composition (items : List QItem) :
    ∀ table : Table,
    supervisedProcess table items =
      match _process_responses true table items with
      | (t, LoopExit.blocked) => (t, false)
      | (t, LoopExit.finished _) => (t, true)
      | (t, LoopExit.crashed e rest) =>
          if _process_responses_cb (LoopOutcome.failed e) then
            supervisedProcess t rest
          else (t, false) := by
  induction items with
  | nil => intro table; rfl
  | cons item rest ih =>
      intro table
      cases item with
      | endOfQueue => rfl
      | resp m =>
          rcases hpr : _process_response table m with e | t
          · rw [supervisedProcess_resp_err table m rest e hpr,
              _process_responses_resp_err table m rest e hpr]
            exact rfl
          · rw [supervisedProcess_resp_ok table m rest t hpr,
              _process_responses_resp_ok table m rest t hpr]
            exact ih t

/-- A run of the unsupervised loop never changes the entry at a key none of
the incoming responses carries (crash included: the loop stops, leaving the
table as it was). -/
theorem _process_responses_preserve (ms : List ModelResponseMessage) :
    ∀ (table : Table) (i : String), (∀ m ∈ ms, m.id ≠ i) →
    dictGet (_process_responses true table (ms.map QItem.resp)).1 i
      = dictGet table i := by
  induction ms with
  | nil => intro table i _; rfl
  | cons m ms ih =>
      intro table i h
      rw [List.map_cons]
      rcases hpr : _process_response table m with e | t
      · rw [_process_responses_resp_err table m _ e hpr]
      · rw [_process_responses_resp_ok table m _ t hpr]
        have ht := _process_response_ok_inv table m t hpr
        subst ht
        rw [ih (dictSet table m.id (respState m)) i
          (fun m2 hm2 => h m2 (List.mem_cons_of_mem m hm2))]
        exact dictGet_dictSet_ne table m.id i (respState m)
          (fun hh => h m (List.mem_cons_self m ms) hh.symm) ▸ rfl

/-- A run of the supervised loop never changes the entry at a key none of
the incoming responses carries. -/
theorem supervisedProcess_preserve (ms : List ModelResponseMessage) :
    ∀ (table : Table) (i : String), (∀ m ∈ ms, m.id ≠ i) →
    dictGet (supervisedProcess table (ms.map QItem.resp)).1 i
      = dictGet table i := by
  induction ms with
  | nil => intro table i _; rfl
  | cons m ms ih =>
      intro table i h
      rw [List.map_cons]
      have htail : ∀ m2 ∈ ms, m2.id ≠ i :=
        fun m2 hm2 => h m2 (List.mem_cons_of_mem m hm2)
      rcases hpr : _process_response table m with e | t
      · rw [supervisedProcess_resp_err table m _ e hpr]
        exact ih table i htail
      · rw [supervisedProcess_resp_ok table m _ t hpr]
        have ht := _process_response_ok_inv table m t hpr
        subst ht
        rw [ih (dictSet table m.id (respState m)) i htail]
        exact dictGet_dictSet_ne table m.id i (respState m)
          (fun hh => h m (List.mem_cons_self m ms) hh.symm)

/-- Core correlation lemma for the unsupervised loop: when every incoming
response finds its pending entry and ids are pairwise distinct, the run
leaves the entry of a successful response `r` resolved with `r` itself,
whatever the arrival order was. -/
theorem _process_responses_resolves (ms : List ModelResponseMessage) :
    ∀ (table : Table) (r : ModelResponseMessage), r ∈ ms →
    r.exception = none →
    (∀ m ∈ ms, (dictGet table m.id).isSome) →
    ms.Pairwise (fun a b => a.id ≠ b.id) →
    dictGet (_process_responses true table (ms.map QItem.resp)).1 r.id
      = some (FutureState.result r) := by
  induction ms with
  | nil => intro _ r hr; cases hr
  | cons m ms ih =>
      intro table r hr hexc hall hpw
      obtain ⟨hhead, htailpw⟩ := List.pairwise_cons.mp hpw
      have hm : (dictGet table m.id).isSome := hall m (List.mem_cons_self m ms)
      rw [List.map_cons,
        _process_responses_resp_ok table m _ _ (_process_response_of_isSome table m hm)]
      rcases List.mem_cons.mp hr with rfl | hr2
      · rw [_process_responses_preserve ms _ r.id
          (fun m2 hm2 => fun hh => hhead m2 hm2 hh.symm)]
        rw [dictGet_dictSet_self]
        unfold respState
        rw [hexc]
      · exact ih (dictSet table m.id (respState m)) r hr2 hexc
          (fun m2 hm2 => isSome_dictGet_dictSet table m.id m2.id (respState m)
            (hall m2 (List.mem_cons_of_mem m hm2)))
          htailpw

/-- Core correlation lemma for the supervised loop: a successful response
whose pending entry exists is resolved with itself, even when other
responses in the run crash loop iterations (unknown ids) in between. -/
theorem supervisedProcess_resolves (ms : List ModelResponseMessage) :
    ∀ (table : Table) (r : ModelResponseMessage), r ∈ ms →
    r.exception = none →
    (dictGet table r.id).isSome →
    ms.Pairwise (fun a b => a.id ≠ b.id) →
    dictGet (supervisedProcess table (ms.map QItem.resp)).1 r.id
      = some (FutureState.result r) := by
  induction ms with
  | nil => intro _ r hr; cases hr
  | cons m ms ih =>
      intro table r hr hexc hsome hpw
      obtain ⟨hhead, htailpw⟩ := List.pairwise_cons.mp hpw
      rw [List.map_cons]
      rcases List.mem_cons.mp hr with rfl | hr2
      · rw [supervisedProcess_resp_ok table r _ _
          (_process_response_of_isSome table r hsome)]
        rw [supervisedProcess_preserve ms _ r.id
          (fun m2 hm2 => fun hh => hhead m2 hm2 hh.symm)]
        rw [dictGet_dictSet_self]
        unfold respState
        rw [hexc]
      · rcases hpr : _process_response table m with e | t
        · rw [supervisedProcess_resp_err table m _ e hpr]
          exact ih table r hr2 hexc hsome htailpw
        · rw [supervisedProcess_resp_ok table m _ t hpr]
          have ht := _process_response_ok_inv table m t hpr
          subst ht
          exact ih (dictSet table m.id (respState m)) r hr2 hexc
            (isSome_dictGet_dictSet table m.id r.id (respState m) hsome) htailpw

/-! ### Round-robin counting lemmas -/

theorem slotCount_succ (N M j : Nat) :
    slotCount N (M + 1) j = slotCount N M j + (if M % N = j then 1 else 0) := by
  unfold slotCount
  rw [List.range_succ, List.filter_append, List.length_append]
  by_cases h : M % N = j <;> simp [h]

theorem slotCount_eq (N : Nat) (hN : 0 < N) (j : Nat) (hj : j < N) (M : Nat) :
    slotCount N M j = M / N + (if j < M % N then 1 else 0) := by
  induction M with
  | zero => simp [slotCount]
  | succ M ih =>
      rw [slotCount_succ, ih]
      have hrlt : M % N < N := Nat.mod_lt _ hN
      have hdm := Nat.div_add_mod M N
      rcases Nat.lt_or_ge (M % N + 1) N with hlt | hge
      · have e1 : M + 1 = N * (M / N) + (M % N + 1) := by
          conv_lhs => rw [← hdm]
          rw [Nat.add_assoc]
        have hmod : (M + 1) % N = M % N + 1 := by
          rw [e1, Nat.mul_add_mod, Nat.mod_eq_of_lt hlt]
        have hdiv : (M + 1) / N = M / N := by
          rw [e1, Nat.mul_add_div hN, Nat.div_eq_of_lt hlt, Nat.add_zero]
        rw [hmod, hdiv]
        split_ifs <;> omega
      · have hEq : M % N + 1 = N := Nat.le_antisymm hrlt hge
        have e2 : M + 1 = N * (M / N) + N := by
          conv_lhs => rw [← hdm]
          rw [Nat.add_assoc, hEq]
        have e3 : M + 1 = N * (M / N + 1) := by
          rw [Nat.mul_add, Nat.mul_one]
          exact e2
        have hmod : (M + 1) % N = 0 := by rw [e3, Nat.mul_mod_right]
        have hdiv : (M + 1) / N = M / N + 1 := by
          rw [e3, Nat.mul_div_cancel_left _ hN]
        rw [hmod, hdiv]
        split_ifs <;> omega

theorem ceilDiv_of_mod_pos (N M : Nat) (hN : 0 < N) (hr : 0 < M % N) :
    (M + N - 1) / N = M / N + 1 := by
  have hdm := Nat.div_add_mod M N
  have hrlt : M % N < N := Nat.mod_lt _ hN
  have h5 : N * (M / N) + (M % N - 1) + 1 = M := by
    rw [Nat.add_assoc, Nat.sub_add_cancel hr, hdm]
  have e5 : N * (M / N) + (M % N - 1) = M - 1 := Nat.eq_sub_of_add_eq h5
  have hM1 : 1 ≤ M := Nat.le_trans hr (Nat.mod_le M N)
  have e6 : M + N - 1 = (M - 1) + N := by omega
  rw [e6, Nat.add_div_right _ hN, ← e5, Nat.mul_add_div hN,
    Nat.div_eq_of_lt (show M % N - 1 < N by omega), Nat.add_zero]

theorem assignedCount_eq_slotCount (pids : List Nat) (hnodup : pids.Nodup)
    (M j : Nat) (hj : j < pids.length) :
    assignedCount pids M (pids.getD j 0) = slotCount pids.length M j := by
  unfold assignedCount slotCount
  congr 1
  apply List.filter_congr
  intro n _
  have hlen : 0 < pids.length := Nat.lt_of_le_of_lt (Nat.zero_le j) hj
  have hn : n % pids.length < pids.length := Nat.mod_lt _ hlen
  unfold _get_worker
  rw [List.getD_eq_getElem pids 0 hn, List.getD_eq_getElem pids 0 hj,
    decide_eq_decide]
  exact hnodup.getElem_inj_iff

/-- The supervised loop always terminates by reading a sentinel when the
channel contents end in one, no matter what precedes it. -/
theorem supervisedProcess_terminates_at_sentinel (q : List QItem) :
    ∀ table : Table, (supervisedProcess table (q ++ [END_OF_QUEUE])).2 = true := by
  induction q with
  | nil => intro table; rfl
  | cons item q ih =>
      intro table
      cases item with
      | endOfQueue => rfl
      | resp m =>
          rw [List.cons_append]
          rcases hpr : _process_response table m with e | t
          · rw [supervisedProcess_resp_err table m _ e hpr]
            exact ih table
          · rw [supervisedProcess_resp_ok table m _ t hpr]
            exact ih t

/-! ### Codec registry lemmas -/

theorem find_input_codec_eq (m : CodecDefaults) (ct : String) :
    find_input_codec m ct =
      match dictGet m.input_codecs ct with
      | none => Except.error (PyError.keyError ct)
      | some c => Except.ok c := rfl

theorem find_request_codec_eq (m : CodecDefaults) (ct : String) :
    find_request_codec m ct =
      match dictGet m.request_codecs ct with
      | none => Except.error (PyError.keyError ct)
      | some c => Except.ok c := rfl

theorem isInputFor_false_of_contentType_ne (op : CodecOp) (ct : String)
    (h : op.contentType ≠ ct) : op.isInputFor ct = false := by
  cases op with
  | regInput ct2 c => simpa [CodecOp.isInputFor] using h
  | regRequest ct2 c => rfl

theorem isRequestFor_false_of_contentType_ne (op : CodecOp) (ct : String)
    (h : op.contentType ≠ ct) : op.isRequestFor ct = false := by
  cases op with
  | regInput ct2 c => rfl
  | regRequest ct2 c => simpa [CodecOp.isRequestFor] using h

theorem applyOp_input_preserve (m : CodecDefaults) (op : CodecOp) (ct : String)
    (h : op.isInputFor ct = false) :
    dictGet (applyOp m op).input_codecs ct = dictGet m.input_codecs ct := by
  cases op with
  | regInput ct2 c =>
      have hne : ct ≠ ct2 := by
        simp [CodecOp.isInputFor] at h
        exact fun hh => h hh.symm
      exact dictGet_dictSet_ne m.input_codecs ct2 ct c hne
  | regRequest ct2 c => rfl

theorem applyOp_request_preserve (m : CodecDefaults) (op : CodecOp) (ct : String)
    (h : op.isRequestFor ct = false) :
    dictGet (applyOp m op).request_codecs ct = dictGet m.request_codecs ct := by
  cases op with
  | regInput ct2 c => rfl
  | regRequest ct2 c =>
      have hne : ct ≠ ct2 := by
        simp [CodecOp.isRequestFor] at h
        exact fun hh => h hh.symm
      exact dictGet_dictSet_ne m.request_codecs ct2 ct c hne

theorem applyOps_input_preserve (ops : List CodecOp) :
    ∀ (m : CodecDefaults) (ct : String), (∀ op ∈ ops, op.isInputFor ct = false) →
    dictGet (applyOps m ops).input_codecs ct = dictGet m.input_codecs ct := by
  induction ops with
  | nil => intro m ct _; rfl
  | cons op ops ih =>
      intro m ct h
      have hstep : applyOps m (op :: ops) = applyOps (applyOp m op) ops := rfl
      rw [hstep, ih (applyOp m op) ct (fun o ho => h o (List.mem_cons_of_mem op ho)),
        applyOp_input_preserve m op ct (h op (List.mem_cons_self op ops))]

theorem applyOps_request_preserve (ops : List CodecOp) :
    ∀ (m : CodecDefaults) (ct : String), (∀ op ∈ ops, op.isRequestFor ct = false) →
    dictGet (applyOps m ops).request_codecs ct = dictGet m.request_codecs ct := by
  induction ops with
  | nil => intro m ct _; rfl
  | cons op ops ih =>
      intro m ct h
      have hstep : applyOps m (op :: ops) = applyOps (applyOp m op) ops := rfl
      rw [hstep, ih (applyOp m op) ct (fun o ho => h o (List.mem_cons_of_mem op ho)),
        applyOp_request_preserve m op ct (h op (List.mem_cons_self op ops))]

/-! ### Claim theorems -/

/-- C1: for every set of concurrently issued dispatch calls with
pairwise-distinct correlation ids — embedded as a pending table holding an
entry for each call's id and the multiset of their responses arriving in an
arbitrary order on the shared channel — the response loop resolves the
entry of request id `i` with exactly the response whose id is `i`, and
`_wait_response` then returns that very response to the caller that
registered `i`, regardless of the arrival interleaving. -/
theorem dispatch_correlation_integrity (table : Table)
    (arrivals : List ModelResponseMessage) (i : String)
    (r : ModelResponseMessage) (hid : r.id = i) (hmem : r ∈ arrivals)
    (hexc : r.exception = none)
    (hall : ∀ m ∈ arrivals, (dictGet table m.id).isSome)
    (hdist : arrivals.Pairwise (fun a b => a.id ≠ b.id)) :
    dictGet (_process_responses true table (arrivals.map QItem.resp)).1 i
      = some (FutureState.result r) ∧
    awaitEndOf (FutureState.result r) = some (AwaitEnd.value r) ∧
    _wait_response (_process_responses true table (arrivals.map QItem.resp)).1 i
        (AwaitEnd.value r)
      = Except.ok (AwaitEnd.value r,
          dictDel (_process_responses true table (arrivals.map QItem.resp)).1 i) := by
  have hres := _process_responses_resolves arrivals table r hmem hexc hall hdist
  rw [hid] at hres
  refine ⟨hres, rfl, ?_⟩
  unfold _wait_response
  rw [hres]

/-- C1 witness: two pending calls "a" and "b"; responses arrive in the
opposite order; the call for "a" still receives exactly the response with
id "a". -/
theorem dispatch_correlation_integrity_witness :
    dictGet (_process_responses true
        [("a", FutureState.pending), ("b", FutureState.pending)]
        ([ModelResponseMessage.mk "b" none 2,
          ModelResponseMessage.mk "a" none 1].map QItem.resp)).1 "a"
      = some (FutureState.result (ModelResponseMessage.mk "a" none 1)) ∧
    awaitEndOf (FutureState.result (ModelResponseMessage.mk "a" none 1))
      = some (AwaitEnd.value (ModelResponseMessage.mk "a" none 1)) ∧
    _wait_response (_process_responses true
        [("a", FutureState.pending), ("b", FutureState.pending)]
        ([ModelResponseMessage.mk "b" none 2,
          ModelResponseMessage.mk "a" none 1].map QItem.resp)).1 "a"
        (AwaitEnd.value (ModelResponseMessage.mk "a" none 1))
      = Except.ok (AwaitEnd.value (ModelResponseMessage.mk "a" none 1),
          dictDel (_process_responses true
            [("a", FutureState.pending), ("b", FutureState.pending)]
            ([ModelResponseMessage.mk "b" none 2,
              ModelResponseMessage.mk "a" none 1].map QItem.resp)).1 "a") :=
  dispatch_correlation_integrity
    [("a", FutureState.pending), ("b", FutureState.pending)]
    [ModelResponseMessage.mk "b" none 2, ModelResponseMessage.mk "a" none 1]
    "a" (ModelResponseMessage.mk "a" none 1)
    rfl (by decide) rfl (by decide) (by decide)

/-- C2 counterexample: the claim says a response whose correlation id has no
pending entry is dropped "without raising any error"; but `_process_response`
looks the id up by plain dict indexing, so on the concrete table holding only
id "a", a response with unknown id "x" raises KeyError("x") instead of
returning successfully. -/
theorem unknown_id_not_silent_counterexample :
    _process_response [("a", FutureState.pending)]
        (ModelResponseMessage.mk "x" none 0)
      = Except.error (PyError.keyError "x") := rfl

/-- C2 amended: when the response loop reads a ResponseEnvelope whose
correlation id has no entry in the pending table, `_process_response` raises
KeyError, crashing that loop iteration; under the supervisor the loop is
restarted on the remaining items, so the response is effectively dropped,
the pending table — hence every other pending operation — is left unchanged,
and processing continues. -/
theorem unknown_id_keyerror_loop_restart (table : Table)
    (m : ModelResponseMessage) (hnone : dictGet table m.id = none) :
    _process_response table m = Except.error (PyError.keyError m.id) ∧
    (∀ rest : List QItem,
      supervisedProcess table (QItem.resp m :: rest)
        = supervisedProcess table rest) :=
  ⟨_process_response_of_none table m hnone,
   fun rest => supervisedProcess_resp_err table m rest (PyError.keyError m.id)
     (_process_response_of_none table m hnone)⟩

/-- C2 witness: concrete run of the amended claim on a table holding only
id "a" and a response with unknown id "x". -/
theorem unknown_id_keyerror_loop_restart_witness :
    _process_response [("a", FutureState.pending)]
        (ModelResponseMessage.mk "x" none 0)
      = Except.error (PyError.keyError "x") ∧
    (∀ rest : List QItem,
      supervisedProcess [("a", FutureState.pending)]
          (QItem.resp (ModelResponseMessage.mk "x" none 0) :: rest)
        = supervisedProcess [("a", FutureState.pending)] rest) :=
  unknown_id_keyerror_loop_restart [("a", FutureState.pending)]
    (ModelResponseMessage.mk "x" none 0) (by decide)

/-- C3: for a dispatcher over the registration-order worker pid list, the
`_get_worker` assignment sequence is periodic with period N, the first cycle
walks the workers in registration order, and over any M ≥ N sequential
dispatch calls each worker receives either ⌊M/N⌋ or ⌈M/N⌉ = (M+N-1)/N
requests; `_get_worker` reads no worker state, so no worker is skipped for
being busy. -/
theorem round_robin_fairness (pids : List Nat) (M j : Nat)
    (hnodup : pids.Nodup) (hN : 0 < pids.length) (_hM : pids.length ≤ M)
    (hj : j < pids.length) :
    (∀ n, _get_worker pids (n + pids.length) = _get_worker pids n) ∧
    _get_worker pids j = pids.getD j 0 ∧
    (assignedCount pids M (pids.getD j 0) = M / pids.length ∨
      assignedCount pids M (pids.getD j 0)
        = (M + pids.length - 1) / pids.length) := by
  refine ⟨fun n => ?_, ?_, ?_⟩
  · unfold _get_worker
    rw [Nat.add_mod_right]
  · unfold _get_worker
    rw [Nat.mod_eq_of_lt hj]
  · rw [assignedCount_eq_slotCount pids hnodup M j hj,
      slotCount_eq pids.length hN j hj M]
    by_cases hcase : j < M % pids.length
    · right
      rw [if_pos hcase, ceilDiv_of_mod_pos pids.length M hN
        (Nat.lt_of_le_of_lt (Nat.zero_le j) hcase)]
    · left
      rw [if_neg hcase, Nat.add_zero]

/-- C3 witness: 3 workers with pids 10, 11, 12 and M = 9 sequential calls;
worker at slot 1 (pid 11) receives exactly 9 / 3 = 3 requests and the
sequence is periodic with period 3. -/
theorem round_robin_fairness_witness :
    (∀ n, _get_worker [10, 11, 12] (n + [10, 11, 12].length)
      = _get_worker [10, 11, 12] n) ∧
    _get_worker [10, 11, 12] 1 = [10, 11, 12].getD 1 0 ∧
    (assignedCount [10, 11, 12] 9 ([10, 11, 12].getD 1 0)
        = 9 / [10, 11, 12].length ∨
      assignedCount [10, 11, 12] 9 ([10, 11, 12].getD 1 0)
        = (9 + [10, 11, 12].length - 1) / [10, 11, 12].length) :=
  round_robin_fairness [10, 11, 12] 9 1 (by decide) (by decide) (by decide)
    (by decide)

/-- C4: a response carrying an error payload resolves the matching pending
future via set_exception; the caller's await then ends with exactly that
carried error — which is not a success value — and `_wait_response`
propagates it as a failure to that caller alone while the loop itself
continues normally (`_process_response` returns ok). -/
theorem worker_error_propagation (table : Table) (m : ModelResponseMessage)
    (e : String) (hexc : m.exception = some e)
    (hreg : (dictGet table m.id).isSome) :
    _process_response table m
      = Except.ok (dictSet table m.id (FutureState.exc e)) ∧
    awaitEndOf (FutureState.exc e) = some (AwaitEnd.error e) ∧
    (∀ r2 : ModelResponseMessage, AwaitEnd.error e ≠ AwaitEnd.value r2) ∧
    _wait_response (dictSet table m.id (FutureState.exc e)) m.id
        (AwaitEnd.error e)
      = Except.ok (AwaitEnd.error e,
          dictDel (dictSet table m.id (FutureState.exc e)) m.id) := by
  have hstate : respState m = FutureState.exc e := by
    unfold respState
    rw [hexc]
  refine ⟨?_, rfl, ?_, ?_⟩
  · rw [_process_response_of_isSome table m hreg, hstate]
  · intro r2 h
    cases h
  · unfold _wait_response
    rw [dictGet_dictSet_self]

/-- C4 witness: the spec scenario — a response for "r1" carrying the error
payload "divide by zero" makes the dispatch call for "r1" fail with exactly
that error. -/
theorem worker_error_propagation_witness :
    _process_response [("r1", FutureState.pending)]
        (ModelResponseMessage.mk "r1" (some "divide by zero") 0)
      = Except.ok (dictSet [("r1", FutureState.pending)] "r1"
          (FutureState.exc "divide by zero")) ∧
    awaitEndOf (FutureState.exc "divide by zero")
      = some (AwaitEnd.error "divide by zero") ∧
    (∀ r2 : ModelResponseMessage,
      AwaitEnd.error "divide by zero" ≠ AwaitEnd.value r2) ∧
    _wait_response (dictSet [("r1", FutureState.pending)] "r1"
        (FutureState.exc "divide by zero")) "r1"
        (AwaitEnd.error "divide by zero")
      = Except.ok (AwaitEnd.error "divide by zero",
          dictDel (dictSet [("r1", FutureState.pending)] "r1"
            (FutureState.exc "divide by zero")) "r1") :=
  worker_error_propagation [("r1", FutureState.pending)]
    (ModelResponseMessage.mk "r1" (some "divide by zero") 0)
    "divide by zero" rfl (by decide)

/-- C5 counterexample: the claim says the loop "terminates permanently only
via deliberate cancellation", but `_process_responses_cb` equally declines
to restart after a normal return of the loop (the sentinel exit), a
non-cancellation outcome — so cancellation is not the only path to
permanent termination. -/
theorem loop_permanent_stop_counterexample :
    _process_responses_cb LoopOutcome.finished = false ∧
    LoopOutcome.finished ≠ LoopOutcome.cancelled := by decide

/-- C5 amended: the response loop restarts after every uncaught failure
other than cancellation — `_process_responses_cb` logs and calls `start`
again exactly on a failure outcome — and terminates permanently on
deliberate cancellation or on the clean sentinel exit; after a crash the
restarted loop correctly resolves subsequent responses without external
intervention. -/
theorem response_loop_restart_policy (e : PyError) (table : Table)
    (ms : List ModelResponseMessage) (r : ModelResponseMessage)
    (hmem : r ∈ ms) (hexc : r.exception = none)
    (hreg : (dictGet table r.id).isSome)
    (hdist : ms.Pairwise (fun a b => a.id ≠ b.id)) :
    _process_responses_cb (LoopOutcome.failed e) = true ∧
    _process_responses_cb LoopOutcome.cancelled = false ∧
    dictGet (supervisedProcess table (ms.map QItem.resp)).1 r.id
      = some (FutureState.result r) :=
  ⟨rfl, rfl, supervisedProcess_resolves ms table r hmem hexc hreg hdist⟩

/-- C5 witness: a response with unknown id "x" crashes a loop iteration;
the restarted loop still resolves the subsequent response for the pending
call "a". -/
theorem response_loop_restart_policy_witness :
    _process_responses_cb (LoopOutcome.failed (PyError.keyError "x")) = true ∧
    _process_responses_cb LoopOutcome.cancelled = false ∧
    dictGet (supervisedProcess [("a", FutureState.pending)]
        ([ModelResponseMessage.mk "x" none 9,
          ModelResponseMessage.mk "a" none 1].map QItem.resp)).1 "a"
      = some (FutureState.result (ModelResponseMessage.mk "a" none 1)) :=
  response_loop_restart_policy (PyError.keyError "x")
    [("a", FutureState.pending)]
    [ModelResponseMessage.mk "x" none 9, ModelResponseMessage.mk "a" none 1]
    (ModelResponseMessage.mk "a" none 1)
    (by decide) rfl (by decide) (by decide)

/-- C6: after `stop` completes the shared channel ends in the sentinel, so
the (supervised) background loop terminates by reading it — the only
non-error exit — and a loop that reads a sentinel processes nothing after
it; the cancelled task is not left running, and a second `stop` completes
without fault, leaving the task state unchanged and the channel still
sentinel-terminated. -/
theorem clean_shutdown (s : DispatcherState) (table : Table) :
    (stop s).responses = s.responses ++ [END_OF_QUEUE] ∧
    (supervisedProcess table (stop s).responses).2 = true ∧
    (∀ (t : Table) (rest : List QItem),
      supervisedProcess t (QItem.endOfQueue :: rest) = (t, true)) ∧
    (stop s).responsesClosed = true ∧
    (stop s).task ≠ some true ∧
    (stop (stop s)).task = (stop s).task ∧
    (supervisedProcess table (stop (stop s)).responses).2 = true := by
  refine ⟨rfl, ?_, fun t rest => rfl, rfl, ?_, ?_, ?_⟩
  · exact supervisedProcess_terminates_at_sentinel s.responses table
  · cases ht : s.task with
    | none => simp [stop, ht]
    | some t => simp [stop, ht, cancel_task]
  · cases ht : s.task <;> simp [stop, ht, cancel_task]
  · exact supervisedProcess_terminates_at_sentinel (stop s).responses table

/-- C7 counterexample: the claim says the pending entry is registered
immediately before the request is submitted to the worker; but in the
concrete dispatch call for request "r0" on worker 101, the registration
action does not precede the send action in `dispatchActions`. -/
theorem register_before_send_counterexample :
    ¬ ((dispatchActions 101 (ModelRequestMessage.mk "r0" 0)).findIdx
          isRegisterAction
        < (dispatchActions 101 (ModelRequestMessage.mk "r0" 0)).findIdx
          isSendAction) := by decide

/-- C7 amended: in every dispatch call the request is submitted to the
selected worker first (action index 2) and the PendingOperation is created
and registered immediately after (index 5), before the caller awaits it
(index 6) — with no await point in between, so no response can interleave;
and the entry is removed from the table immediately after its result is
consumed, on every completion path of `_wait_response`. -/
theorem register_after_send_cleanup (wpid : Nat) (req : ModelRequestMessage) :
    (dispatchActions wpid req).findIdx isSendAction = 2 ∧
    (dispatchActions wpid req).findIdx isRegisterAction = 5 ∧
    (dispatchActions wpid req).findIdx isAwaitAction = 6 ∧
    (∀ (table : Table) (i : String) (end_ : AwaitEnd),
      (dictGet table i).isSome →
      _wait_response table i end_ = Except.ok (end_, dictDel table i)) := by
  refine ⟨rfl, rfl, rfl, fun table i end_ h => ?_⟩
  rcases hget : dictGet table i with _ | fs
  · rw [hget] at h
    cases h
  · simp [_wait_response, hget]

/-- C7 witness: concrete dispatch call for "r0" on worker 101, and a
concrete consumed entry being removed. -/
theorem register_after_send_cleanup_witness :
    (dispatchActions 101 (ModelRequestMessage.mk "r0" 0)).findIdx
        isSendAction = 2 ∧
    _wait_response [("r0", FutureState.pending)] "r0" AwaitEnd.cancelled
      = Except.ok (AwaitEnd.cancelled,
          dictDel [("r0", FutureState.pending)] "r0") :=
  ⟨(register_after_send_cleanup 101 (ModelRequestMessage.mk "r0" 0)).1,
   (register_after_send_cleanup 101 (ModelRequestMessage.mk "r0" 0)).2.2.2
     [("r0", FutureState.pending)] "r0" AwaitEnd.cancelled (by decide)⟩

/-- C8: a dispatch call whose wait is cancelled externally before its
response arrives still runs the `finally` deletion in `_wait_response`: the
entry for its correlation id is removed from the pending table — no leaked
entry — while every other pending operation's entry is untouched. -/
theorem abandoned_dispatch_cleanup (table : Table) (i : String)
    (hreg : (dictGet table i).isSome) (hnd : (dictKeys table).Nodup) :
    _wait_response table i AwaitEnd.cancelled
      = Except.ok (AwaitEnd.cancelled, dictDel table i) ∧
    dictGet (dictDel table i) i = none ∧
    (∀ j, j ≠ i → dictGet (dictDel table i) j = dictGet table j) := by
  refine ⟨?_, dictGet_dictDel_self table i hnd,
    fun j hj => dictGet_dictDel_ne table i j hj⟩
  rcases hget : dictGet table i with _ | fs
  · rw [hget] at hreg
    cases hreg
  · simp [_wait_response, hget]

/-- C8 witness: cancelling the wait for "a" removes its entry and leaves
the entry for "b" untouched. -/
theorem abandoned_dispatch_cleanup_witness :
    _wait_response [("a", FutureState.pending), ("b", FutureState.pending)]
        "a" AwaitEnd.cancelled
      = Except.ok (AwaitEnd.cancelled,
          dictDel [("a", FutureState.pending), ("b", FutureState.pending)] "a") ∧
    dictGet (dictDel [("a", FutureState.pending), ("b", FutureState.pending)]
        "a") "a" = none ∧
    (∀ j, j ≠ "a" →
      dictGet (dictDel [("a", FutureState.pending), ("b", FutureState.pending)]
          "a") j
        = dictGet [("a", FutureState.pending), ("b", FutureState.pending)] j) :=
  abandoned_dispatch_cleanup
    [("a", FutureState.pending), ("b", FutureState.pending)] "a"
    (by decide) (by decide)

/-- C9: a content type never registered (no registration event names it)
makes `find_input_codec` — and likewise `find_request_codec` — raise
KeyError rather than return a default; once registered, the finder returns
the most recently registered codec for that content type: a later
registration for the same content type silently overwrites any earlier one,
and subsequent non-conflicting registrations leave it in place. -/
theorem codec_find_semantics (ops : List CodecOp) (ct : String) (c : Codec)
    (d : CodecDefaults) (tailOps : List CodecOp) :
    ((∀ op ∈ ops, op.contentType ≠ ct) →
      find_input_codec (applyOps initialCodecDefaults ops) ct
          = Except.error (PyError.keyError ct) ∧
      find_request_codec (applyOps initialCodecDefaults ops) ct
          = Except.error (PyError.keyError ct)) ∧
    ((∀ op ∈ tailOps, op.isInputFor ct = false) →
      find_input_codec (applyOps (register_input_codec d ct c) tailOps) ct
        = Except.ok c) ∧
    ((∀ op ∈ tailOps, op.isRequestFor ct = false) →
      find_request_codec (applyOps (register_request_codec d ct c) tailOps) ct
        = Except.ok c) := by
  refine ⟨fun h => ⟨?_, ?_⟩, fun h => ?_, fun h => ?_⟩
  · rw [find_input_codec_eq, applyOps_input_preserve ops initialCodecDefaults ct
      (fun op ho => isInputFor_false_of_contentType_ne op ct (h op ho))]
    exact rfl
  · rw [find_request_codec_eq, applyOps_request_preserve ops initialCodecDefaults
      ct (fun op ho => isRequestFor_false_of_contentType_ne op ct (h op ho))]
    exact rfl
  · rw [find_input_codec_eq,
      applyOps_input_preserve tailOps (register_input_codec d ct c) ct h]
    have : dictGet (register_input_codec d ct c).input_codecs ct = some c :=
      dictGet_dictSet_self d.input_codecs ct c
    rw [this]
  · rw [find_request_codec_eq,
      applyOps_request_preserve tailOps (register_request_codec d ct c) ct h]
    have : dictGet (register_request_codec d ct c).request_codecs ct = some c :=
      dictGet_dictSet_self d.request_codecs ct c
    rw [this]

/-- C9 witness: an unrelated registration leaves "ct" unregistered and its
lookup a KeyError; registering "ct" over an earlier codec (overwrite) and
then applying a request-side registration for the same content type still
finds the input codec "c9"; and a fresh request registration is found. -/
theorem codec_find_semantics_witness :
    find_input_codec (applyOps initialCodecDefaults
        [CodecOp.regInput "other" "c0"]) "ct"
      = Except.error (PyError.keyError "ct") ∧
    find_input_codec (applyOps
        (register_input_codec (CodecDefaults.mk [("ct", "old")] []) "ct" "c9")
        [CodecOp.regRequest "ct" "c3"]) "ct"
      = Except.ok "c9" ∧
    find_request_codec (applyOps
        (register_request_codec (CodecDefaults.mk [] []) "ct" "c4") []) "ct"
      = Except.ok "c4" :=
  ⟨((codec_find_semantics [CodecOp.regInput "other" "c0"] "ct" "c9"
      (CodecDefaults.mk [("ct", "old")] []) [CodecOp.regRequest "ct" "c3"]).1
      (by decide)).1,
   (codec_find_semantics [CodecOp.regInput "other" "c0"] "ct" "c9"
      (CodecDefaults.mk [("ct", "old")] []) [CodecOp.regRequest "ct" "c3"]).2.1
      (by decide),
   (codec_find_semantics [] "ct" "c4" (CodecDefaults.mk [] []) []).2.2
      (by decide)⟩

/-- C10: `_CodecRegistry` instances constructed without explicit dictionary
arguments all bind the once-evaluated default dict objects (both `own`
fields are `none`, the aliasing marker for the shared module-level
defaults), so registering a codec through one such instance makes the
finder of any other such instance — here a second `_CodecRegistry.mk none
none` — return that same codec, for input and request codecs alike. -/
theorem default_argument_sharing (d : CodecDefaults) (ct : String)
    (c : Codec) :
    (_CodecRegistry.mk none none).own_input = none ∧
    (_CodecRegistry.mk none none).own_request = none ∧
    _CodecRegistry.find_input_codec
        (_CodecRegistry.register_input_codec d (_CodecRegistry.mk none none)
          ct c).1
        (_CodecRegistry.mk none none) ct = Except.ok c ∧
    _CodecRegistry.find_request_codec
        (_CodecRegistry.register_request_codec d (_CodecRegistry.mk none none)
          ct c).1
        (_CodecRegistry.mk none none) ct = Except.ok c := by
  refine ⟨rfl, rfl, ?_, ?_⟩
  · simp [_CodecRegistry.find_input_codec, _CodecRegistry.inputDict,
      _CodecRegistry.register_input_codec, dictGet_dictSet_self]
  · simp [_CodecRegistry.find_request_codec, _CodecRegistry.requestDict,
      _CodecRegistry.register_request_codec, dictGet_dictSet_self]

end MLServer
